import Mathlib

/-!
# Verification of the ASL temporal decoding engine

Shallow embedding of the per-frame decision logic of
`backend/asl-service/asl_recognizer.py` (class `ASLRecognizer`), together
with proofs about its specified properties.

The embedding models `ASLRecognizer.process_frame` as a pure step function
on an explicit state record.  External collaborators are modelled as
inputs: the MediaPipe hand detector and the feature extractor are
represented by the per-frame event carrying `hasHands` and the populated
feature vector; the LSTM classifier is represented by the event's `cls`
field (the gateway's confident answer for this frame's full window, if it
were invoked); the Gemini semantic service is an oracle parameter
`String → Except Unit String` where an `error` result models an exception
raised by the call.  Two ghost fields (`semanticCalls`, `inferTimes`)
instrument the state with the arguments of semantic-service calls and the
timestamps of classifier invocations; they influence nothing else.

Timestamps are rationals (`time.time()` deltas in the source).  All
configuration constants are the source's defaults.
-/

namespace ASL

/-- `SEQUENCE_LENGTH` (default 10): capacity of the sequence window. -/
def seqLen : Nat := 10

/-- `stable_threshold` (default 8): capacity of the letter history. -/
def stableThreshold : Nat := 8

/-- `required_hold_time` (default 0.0 seconds). -/
def requiredHoldTime : Rat := 0

/-- `cooldown_time` (default 1.5 seconds). -/
def cooldownTime : Rat := mkRat 3 2

/-- `prediction_interval` = 0.2 seconds: at most 5 predictions per second. -/
def predictionInterval : Rat := mkRat 1 5

/-- `pause_threshold` = 10 frames without hands to trigger analysis. -/
def pauseThreshold : Nat := 10

/-- `PREDICTION_THRESHOLD` (default 0.7). -/
def predictionThreshold : Rat := mkRat 7 10

/-- `TARGET_FEATURES_PER_FRAME` = 21 landmarks × 2 features × 2 hands = 84. -/
def targetFeatures : Nat := 84

/-- The labels committed immediately on confident detection:
`current_prediction in ['J']` in the source. -/
def motionLetters : List String := ["J"]

/-- The stability cutoff `int(0.85 * self.stable_threshold)`: the float
product `0.85 * 8 = 6.8` truncates to `6`. -/
def stabilityCutoff : Nat := (Rat.floor (mkRat 85 100 * (stableThreshold : Rat))).toNat

/-- The all-zero feature vector `np.zeros(TARGET_FEATURES_PER_FRAME)` that
`process_frame` builds before (possibly) populating it from detected hands. -/
def zerosVec : List Rat := List.replicate targetFeatures 0

/-- One per-frame event delivered to the decoder: the frame's wall-clock
time, whether MediaPipe detected hands, the populated feature vector for a
hands frame, and the classifier gateway's answer (confident label and
softmax confidence) if the gateway were consulted on this frame's window.
`cls = none` models "no prediction" (unmapped index / classifier failure). -/
structure FrameEvent where
  time : Rat
  hasHands : Bool
  features : List Rat
  cls : Option (String × Rat)
  deriving DecidableEq, Repr

/-- The mutable session state of `ASLRecognizer`, plus two ghost fields
(`semanticCalls`, `inferTimes`) recording external calls for verification. -/
structure RecState where
  sequenceBuffer : List (List Rat)
  letterHistory : List String
  sentence : String
  currentLetter : Option String
  candidateLetter : Option String
  letterHoldStart : Rat
  cooldownActive : Bool
  cooldownStart : Rat
  lastPredictionTime : Rat
  analyzedSentence : String
  lastAnalyzedSentence : String
  noHandsFrames : Nat
  modelLoaded : Bool
  semanticCalls : List String
  inferTimes : List Rat
  deriving DecidableEq, Repr

/-- The dictionary returned by `process_frame`.  The rate-limited early
return sometimes omits the `prediction` and `confidence` keys, so those
fields are `Option`-wrapped: `none` means the key is absent from the
returned dictionary, `some v` means the key is present with value `v`
(where for `prediction` the value itself is an optional label, since the
full path returns `current_prediction` which may be Python `None`). -/
structure FrameResult where
  prediction : Option (Option String)
  confidence : Option Rat
  sentence : String
  analyzedSentence : String
  deriving DecidableEq, Repr

/-- Python truthiness of the optional string `self.current_letter`:
falsy when `None` or empty. -/
def pyTruthy : Option String → Bool
  | none => false
  | some l => decide (l ≠ "")

/-- Python `s[-1]` as a one-character string (callers guard `s` nonempty). -/
def lastCharStr (s : String) : String :=
  match s.data.getLast? with
  | some c => String.mk [c]
  | none => ""

/-- Python `s.endswith(" ")`: the last character is a space. -/
def endsWithSpace (s : String) : Bool := decide (s.data.getLast? = some ' ')

/-- Python `(not s) or s.isspace()`: `s` is empty or all whitespace. -/
def pyBlank (s : String) : Bool := s.data.all Char.isWhitespace

/-- Python `s.strip()`: drop whitespace from both ends. -/
def pyStrip (s : String) : String :=
  String.mk (((s.data.dropWhile Char.isWhitespace).reverse.dropWhile
    Char.isWhitespace).reverse)

/-- Append to a `deque(maxlen = cap)`: push at the back, drop from the
front beyond capacity. -/
def pushCap (cap : Nat) (l : List α) (x : α) : List α :=
  let l2 := l ++ [x]
  l2.drop (l2.length - cap)

/-- `max(set(h), key=list(h).count)`: an element of `h` of maximal
occurrence count.  The source's tie-break is the iteration order of a
Python `set`, an implementation accident; this embedding fixes the
deterministic choice "first occurrence in `h` among the maximal-count
elements" (none of the verified properties depends on the tie-break). -/
def mostCommon (h : List String) : Option String :=
  h.foldl (fun acc x =>
    match acc with
    | none => some x
    | some b => if h.count b < h.count x then some x else acc) none

/-- `ASLRecognizer.analyze_sentence`: returns `""` for blank input without
consulting the service; otherwise consults the Gemini oracle and on an
exception (`Except.error`) substitutes the fallback
`"Error analyzing: " ++ text` (the same fallback text that
`analyze_asl_gemini` itself returns when the API call inside it fails). -/
def analyzeSentence (o : String → Except Unit String) (text : String) : String :=
  if pyBlank text then ""
  else
    match o text with
    | Except.ok a => a
    | Except.error _ => "Error analyzing: " ++ text

/-- The state after `ASLRecognizer.__init__` (session clock origin 0,
model successfully loaded). -/
def initState : RecState :=
  { sequenceBuffer := []
    letterHistory := []
    sentence := ""
    currentLetter := none
    candidateLetter := none
    letterHoldStart := 0
    cooldownActive := false
    cooldownStart := 0
    lastPredictionTime := 0
    analyzedSentence := ""
    lastAnalyzedSentence := ""
    noHandsFrames := 0
    modelLoaded := true
    semanticCalls := []
    inferTimes := [] }

/-- `ASLRecognizer.reset`: clears buffers, transcript, candidate, cooldown
and pause state.  It does not touch `last_prediction_time` or the loaded
model (nor, here, the ghost call logs). -/
def resetState (s : RecState) : RecState :=
  { s with
    sequenceBuffer := []
    letterHistory := []
    sentence := ""
    analyzedSentence := ""
    lastAnalyzedSentence := ""
    currentLetter := none
    candidateLetter := none
    letterHoldStart := 0
    cooldownActive := false
    cooldownStart := 0
    noHandsFrames := 0 }

/-- The rate-limited early return of `process_frame` (lines 245–254): with
a truthy `current_letter` the dictionary has all four keys (confidence
pinned to 0.0), otherwise only `sentence` and `analyzed_sentence`. -/
def suppressedResult (s : RecState) : FrameResult :=
  if pyTruthy s.currentLetter then
    { prediction := some s.currentLetter
      confidence := some 0
      sentence := s.sentence
      analyzedSentence := s.analyzedSentence }
  else
    { prediction := none
      confidence := none
      sentence := s.sentence
      analyzedSentence := s.analyzedSentence }

/-- The cooldown check (lines 269–272): once the cooldown duration has
elapsed, deactivate the gate and clear the pending candidate. -/
def cooldownStep (now : Rat) (s : RecState) : RecState :=
  if s.cooldownActive = true ∧ cooldownTime ≤ now - s.cooldownStart then
    { s with cooldownActive := false, candidateLetter := none }
  else s

/-- The hands-absent branch (lines 300–315): bump the no-hands counter,
clear the letter history and candidate; append one space when the counter
hits exactly `pause_threshold` on a non-empty sentence not already ending
in a space; at `pause_threshold * 2` analyze a changed non-blank sentence
with the semantic oracle and remember it as analyzed. -/
def pauseStep (o : String → Except Unit String) (s : RecState) : RecState :=
  let s1 := { s with
    noHandsFrames := s.noHandsFrames + 1
    letterHistory := []
    candidateLetter := none }
  let s2 :=
    if s1.noHandsFrames = pauseThreshold ∧ s1.sentence ≠ "" ∧
        endsWithSpace s1.sentence = false then
      { s1 with sentence := s1.sentence ++ " " }
    else s1
  if pauseThreshold * 2 ≤ s2.noHandsFrames ∧ pyStrip s2.sentence ≠ "" ∧
      s2.sentence ≠ s2.lastAnalyzedSentence then
    { s2 with
      analyzedSentence := analyzeSentence o (pyStrip s2.sentence)
      lastAnalyzedSentence := s2.sentence
      semanticCalls := s2.semanticCalls ++ [pyStrip s2.sentence] }
  else s2

/-- Lines 280–315: a hands frame resets the no-hands counter; a hands-absent
frame runs the pause logic. -/
def handsStep (o : String → Except Unit String) (e : FrameEvent)
    (s : RecState) : RecState :=
  if e.hasHands = true then { s with noHandsFrames := 0 }
  else pauseStep o s

/-- Line 318: the frame's feature vector (the populated one for a hands
frame, the untouched zero vector otherwise) is appended to the sequence
buffer unconditionally. -/
def bufferStep (e : FrameEvent) (s : RecState) : RecState :=
  let v := if e.hasHands = true then e.features else zerosVec
  { s with sequenceBuffer := pushCap seqLen s.sequenceBuffer v }

/-- Lines 325–359: when hands are present, the window is full and the model
is loaded, consult the classifier gateway (recorded in the `inferTimes`
ghost log).  A confident answer becomes `current_prediction`; a truthy
motion label commits immediately if the cooldown gate is inactive and it
differs from the last sentence character; a truthy non-motion label is
handed to the stability check.  Returns the updated state,
`current_prediction`, `current_confidence` and the stability label. -/
def predictStep (now : Rat) (e : FrameEvent) (s : RecState) :
    RecState × Option String × Rat × Option String :=
  if e.hasHands = true ∧ s.sequenceBuffer.length = seqLen ∧
      s.modelLoaded = true then
    let s1 := { s with inferTimes := now :: s.inferTimes }
    match e.cls with
    | some (l, c) =>
      if predictionThreshold ≤ c then
        if l ≠ "" then
          if l ∈ motionLetters then
            if s1.cooldownActive = false ∧
                (s1.sentence = "" ∨ lastCharStr s1.sentence ≠ l) then
              ({ s1 with
                  sentence := s1.sentence ++ l
                  currentLetter := some l
                  cooldownActive := true
                  cooldownStart := now
                  letterHistory := []
                  candidateLetter := none }, some l, c, none)
            else (s1, some l, c, none)
          else (s1, some l, c, some l)
        else (s1, some l, c, none)
      else (s1, none, 0, none)
    | none => (s1, none, 0, none)
  else (s, none, 0, none)

/-- Lines 364–392: the letter stability check.  Append the label to the
bounded history; once the history is full, take the plurality label; if
its count reaches `int(0.85 * stable_threshold)` it becomes (or remains)
the candidate; an unchanged candidate held for `required_hold_time` with
the cooldown gate inactive commits, provided it differs from the last
sentence character. -/
def stabilityStep (now : Rat) (p : Option String) (s : RecState) : RecState :=
  match p with
  | none => s
  | some l =>
    if l = "" then s
    else
      let hist := pushCap stableThreshold s.letterHistory l
      let s1 := { s with letterHistory := hist }
      if stableThreshold ≤ hist.length then
        match mostCommon hist with
        | none => s1
        | some mc =>
          if stabilityCutoff ≤ hist.count mc then
            if s1.candidateLetter ≠ some mc then
              { s1 with candidateLetter := some mc, letterHoldStart := now }
            else
              if requiredHoldTime ≤ now - s1.letterHoldStart ∧
                  s1.cooldownActive = false then
                if s1.sentence = "" ∨ lastCharStr s1.sentence ≠ mc then
                  { s1 with
                    sentence := s1.sentence ++ mc
                    currentLetter := some mc
                    cooldownActive := true
                    cooldownStart := now
                    letterHistory := []
                    candidateLetter := none }
                else s1
              else s1
          else s1
      else s1

/-- `ASLRecognizer.process_frame`: the per-frame decision function.  A frame
arriving less than `prediction_interval` after the last processed frame
returns early, with no state change; otherwise the cooldown check, the
hands / pause branch, the buffer push, the rate-limited classifier call
with the motion-letter path, and the stability check run in the source's
order, and the full four-field result is returned. -/
def processFrame (o : String → Except Unit String) (s : RecState)
    (e : FrameEvent) : RecState × FrameResult :=
  if e.time - s.lastPredictionTime < predictionInterval then
    (s, suppressedResult s)
  else
    let s1 := { s with lastPredictionTime := e.time }
    let s2 := cooldownStep e.time s1
    let s3 := handsStep o e s2
    let s4 := bufferStep e s3
    match predictStep e.time e s4 with
    | (s5, cp, cc, sp) =>
      let s6 := stabilityStep e.time sp s5
      (s6,
        { prediction := some cp
          confidence := some cc
          sentence := s6.sentence
          analyzedSentence := s6.analyzedSentence })

/-- Fold the per-frame function over a stream of events. -/
def runFrames (o : String → Except Unit String) (s : RecState)
    (es : List FrameEvent) : RecState :=
  es.foldl (fun s e => (processFrame o s e).1) s

end ASL

namespace ASL

/-! ## Concrete event streams used as witnesses and counterexamples -/

/-- A hands-present frame at time `t` with classifier answer `cls`
(feature payload irrelevant to the decision logic). -/
def handEvt (t : Rat) (cls : Option (String × Rat)) : FrameEvent :=
  { time := t, hasHands := true, features := [], cls := cls }

/-- A hands-absent frame at time `t`. -/
def pauseEvt (t : Rat) : FrameEvent :=
  { time := t, hasHands := false, features := [], cls := none }

/-- A hands frame whose classifier answer is label `l` at confidence 0.9. -/
def lblEvt (t : Rat) (l : String) : FrameEvent := handEvt t (some (l, mkRat 9 10))

/-- Nine hands frames at 0.2 s spacing that fill the sequence window so the
classifier runs from the tenth frame on. -/
def fillEvents : List FrameEvent :=
  (List.range 9).map (fun i => handEvt (mkRat (i + 1) 5) none)

/-- Frames numbered `a` to `b` (at times `i/5`) all classified as `l`. -/
def seg (a b : Nat) (l : String) : List FrameEvent :=
  (List.range (b - a + 1)).map (fun i => lblEvt (mkRat (a + i) 5) l)

/-- Semantic oracle that always succeeds. -/
def oOK : String → Except Unit String := fun t => Except.ok ("G:" ++ t)

/-- Semantic oracle that always raises. -/
def oFail : String → Except Unit String := fun _ => Except.error ()

/-- After the window fills: five confident 'A' frames, two 'B' frames, one
more 'A' frame — a full history `[A,A,A,A,A,B,B,A]` in which 'A' occurs
6 times out of 8 (75 %). -/
def c1Events : List FrameEvent :=
  fillEvents ++ seg 10 14 "A" ++ seg 15 16 "B" ++ seg 17 17 "A"

/-- The §8 end-to-end scenario: the classifier yields 'H','E','L','L','O'
in sequence, each run long enough for stability and with the cooldown
elapsing between commits (frames every 0.2 s). -/
def helloEvents : List FrameEvent :=
  fillEvents ++ seg 10 18 "H" ++ seg 19 27 "E" ++ seg 28 36 "L"
    ++ seg 37 46 "L" ++ seg 47 53 "O"

/-- `n` hands-absent frames following `helloEvents` at the same 0.2 s pace. -/
def pauseRunEvts (n : Nat) : List FrameEvent :=
  (List.range n).map (fun i => pauseEvt (mkRat (54 + i) 5))

/-- The scenario exactly as the claim states it: the HELLO classifier
stream followed by `pauseThreshold` hands-absent frames. -/
def c2ClaimEvents : List FrameEvent := helloEvents ++ pauseRunEvts 10

/-- The scenario extended to `2 × pauseThreshold` hands-absent frames,
which is what the code requires before invoking the semantic service. -/
def c2LongEvents : List FrameEvent := helloEvents ++ pauseRunEvts 20

/-- While the cooldown gate is active, at least `noHandsFrames` processed
frames have happened since its activation, so
`cooldownStart + noHandsFrames · predictionInterval ≤ lastPredictionTime`. -/
def cooldownPauseInv (s : RecState) : Prop :=
  s.cooldownActive = true →
  s.cooldownStart + (s.noHandsFrames : Rat) * predictionInterval ≤
    s.lastPredictionTime

/-- The timestamps of classifier invocations (newest first) are spaced at
least `prediction_interval` apart, and the newest one is not after the
last processed-frame time. -/
def rateLimitInv (s : RecState) : Prop :=
  List.Chain' (fun a b => b + predictionInterval ≤ a) s.inferTimes ∧
  ∀ t ∈ s.inferTimes.head?, t ≤ s.lastPredictionTime

/-- A state about to trigger semantic analysis: 19 hands-absent frames
already seen, sentence "HI" not yet analyzed. -/
def c8State : RecState :=
  { initState with sentence := "HI", noHandsFrames := 19 }

/-- Event-level side condition: any classifier label in the event is a
single character (the label map maps class indices to letters). -/
def labelOK (e : FrameEvent) : Bool :=
  match e.cls with
  | some lc => decide (lc.1.data.length = 1)
  | none => true

/-- All classifier labels in the stream are single characters. -/
def labelsOK (es : List FrameEvent) : Bool := es.all labelOK

/-- No two consecutive characters of a string are equal. -/
def noConsec (s : String) : Prop := List.Chain' (fun a b => a ≠ b) s.data

/-- The decoder invariant behind C3: the sentence has no two equal
adjacent characters, and every stored history label is one character. -/
def sentenceInv (s : RecState) : Prop :=
  noConsec s.sentence ∧ ∀ x ∈ s.letterHistory, x.data.length = 1

/-- A run of `k` hands-absent frames at `prediction_interval` spacing,
starting at time `t0`. -/
def mkPause (t0 : Rat) : Nat → List FrameEvent
  | 0 => []
  | n + 1 => pauseEvt t0 :: mkPause (t0 + predictionInterval) n

/-- A state nine hands-absent frames into a pause with sentence "AB". -/
def c4State : RecState := { initState with sentence := "AB", noHandsFrames := 9 }

/-- A fresh-pause state with sentence "AB". -/
def c4State0 : RecState := { initState with sentence := "AB" }

end ASL

namespace ASL

/-! ## Basic facts about the step function -/

/-- A frame arriving less than `prediction_interval` after the last
processed frame is returned early, unprocessed. -/
theorem processFrame_suppressed (o : String → Except Unit String)
    (s : RecState) (e : FrameEvent)
    (h : e.time - s.lastPredictionTime < predictionInterval) :
    processFrame o s e = (s, suppressedResult s) := by
  unfold processFrame
  rw [if_pos h]

end ASL

namespace ASL

section Proofs

attribute [local semireducible] Rat.add Rat.sub Rat.mul

set_option maxRecDepth 10000

/-! ## Helper lemmas about strings and lists -/

theorem strData_append (s t : String) : (s ++ t).data = s.data ++ t.data := by
  cases s; cases t; rfl

theorem strData_ne_nil {s : String} (h : s ≠ "") : s.data ≠ [] := by
  intro hd
  apply h
  cases s with
  | mk d => cases hd; rfl

theorem lastCharStr_ne {s : String} {c : Char}
    (h : lastCharStr s ≠ String.mk [c]) : s.data.getLast? ≠ some c := by
  intro he
  apply h
  unfold lastCharStr
  rw [he]

theorem mostCommon_mem : ∀ (h : List String) (x : String),
    mostCommon h = some x → x ∈ h := by
  intro h x hx
  unfold mostCommon at hx
  suffices hgen : ∀ (l : List String) (acc : Option String),
      List.foldl (fun acc x =>
        match acc with
        | none => some x
        | some b => if h.count b < h.count x then some x else acc) acc l = some x →
      acc = some x ∨ x ∈ l by
    rcases hgen h none hx with h1 | h2
    · cases h1
    · exact h2
  intro l
  induction l with
  | nil => intro acc hacc; exact Or.inl hacc
  | cons z l ih =>
    intro acc hacc
    rcases ih _ hacc with h1 | h2
    · cases acc with
      | none =>
        cases h1
        exact Or.inr (List.mem_cons_self _ _)
      | some b =>
        simp only at h1
        split at h1
        · cases h1
          exact Or.inr (List.mem_cons_self _ _)
        · exact Or.inl h1
    · exact Or.inr (List.mem_cons_of_mem z h2)

theorem pushCap_mem {cap : Nat} {l : List String} {a x : String}
    (h : x ∈ pushCap cap l a) : x ∈ l ∨ x = a := by
  unfold pushCap at h
  have h2 := List.mem_of_mem_drop h
  rcases List.mem_append.mp h2 with h3 | h3
  · exact Or.inl h3
  · exact Or.inr (List.mem_singleton.mp h3)

theorem dropWhile_head_false {p : Char → Bool} :
    ∀ {l : List Char} {x : Char} {xs : List Char},
      l.dropWhile p = x :: xs → p x = false := by
  intro l
  induction l with
  | nil => intro x xs h; cases h
  | cons a l ih =>
    intro x xs h
    rw [List.dropWhile_cons] at h
    split at h
    · exact ih h
    · cases h
      simp_all

theorem pyStrip_not_blank {s : String} (h : pyStrip s ≠ "") :
    pyBlank (pyStrip s) = false := by
  unfold pyStrip at h ⊢
  unfold pyBlank
  rcases hr : (((s.data.dropWhile Char.isWhitespace).reverse.dropWhile
      Char.isWhitespace)) with _ | ⟨y, ys⟩
  · exact absurd (by rw [hr]; rfl) h
  · simp only [hr]
    have hy : Char.isWhitespace y = false := dropWhile_head_false hr
    rw [List.all_reverse]
    simp [hy]

/-! ## Phase characterization lemmas -/

theorem cooldownStep_eq_self {t : Rat} {s : RecState}
    (h : s.cooldownActive = true → t - s.cooldownStart < cooldownTime) :
    cooldownStep t s = s := by
  unfold cooldownStep
  split
  · next hc =>
    exact absurd (h hc.1) (not_lt.mpr hc.2)
  · rfl

theorem cooldownStep_cases (t : Rat) (s : RecState) :
    cooldownStep t s = s ∨
    cooldownStep t s = { s with cooldownActive := false, candidateLetter := none } := by
  unfold cooldownStep
  split
  · exact Or.inr rfl
  · exact Or.inl rfl

theorem cooldownStep_clears {t : Rat} {s : RecState}
    (h1 : s.cooldownActive = true) (h2 : cooldownTime ≤ t - s.cooldownStart) :
    (cooldownStep t s).cooldownActive = false ∧
    (cooldownStep t s).candidateLetter = none := by
  unfold cooldownStep
  rw [if_pos ⟨h1, h2⟩]
  exact ⟨rfl, rfl⟩

theorem pauseStep_noHandsFrames (o : String → Except Unit String) (s : RecState) :
    (pauseStep o s).noHandsFrames = s.noHandsFrames + 1 := by
  simp only [pauseStep]
  split <;> split <;> rfl

theorem pauseStep_sentence (o : String → Except Unit String) (s : RecState) :
    (pauseStep o s).sentence =
      (if s.noHandsFrames + 1 = pauseThreshold ∧ s.sentence ≠ "" ∧
          endsWithSpace s.sentence = false
       then s.sentence ++ " " else s.sentence) := by
  simp only [pauseStep]
  split
  · split <;> rfl
  · split <;> rfl

theorem pauseStep_preserved (o : String → Except Unit String) (s : RecState) :
    (pauseStep o s).cooldownActive = s.cooldownActive ∧
    (pauseStep o s).cooldownStart = s.cooldownStart ∧
    (pauseStep o s).lastPredictionTime = s.lastPredictionTime ∧
    (pauseStep o s).inferTimes = s.inferTimes ∧
    (pauseStep o s).sequenceBuffer = s.sequenceBuffer ∧
    (pauseStep o s).modelLoaded = s.modelLoaded ∧
    (pauseStep o s).letterHistory = [] ∧
    (pauseStep o s).candidateLetter = none := by
  simp only [pauseStep]
  split <;> split <;> exact ⟨rfl, rfl, rfl, rfl, rfl, rfl, rfl, rfl⟩

theorem pauseStep_semanticCalls_of_eq {o : String → Except Unit String}
    {s : RecState} (h : s.sentence = s.lastAnalyzedSentence) :
    (pauseStep o s).semanticCalls = s.semanticCalls := by
  simp only [pauseStep]
  split
  · next hsp =>
    split
    · next han =>
      exfalso
      have h10 : s.noHandsFrames + 1 = pauseThreshold := hsp.1
      have h20 : pauseThreshold * 2 ≤ s.noHandsFrames + 1 := han.1
      rw [h10] at h20
      simp [pauseThreshold] at h20
    · rfl
  · next hsp =>
    split
    · next han =>
      exact absurd rfl (h ▸ han.2.2)
    · rfl

/-- The analysis branch for C8: with the pause long enough, a non-blank
changed sentence is analyzed and remembered, and the sentence itself is
untouched (the space branch cannot fire at the same frame). -/
theorem pauseStep_analysis {o : String → Except Unit String} {s : RecState}
    (h20 : pauseThreshold * 2 ≤ s.noHandsFrames + 1)
    (hst : pyStrip s.sentence ≠ "")
    (hne : s.sentence ≠ s.lastAnalyzedSentence) :
    (pauseStep o s).sentence = s.sentence ∧
    (pauseStep o s).analyzedSentence = analyzeSentence o (pyStrip s.sentence) ∧
    (pauseStep o s).lastAnalyzedSentence = s.sentence ∧
    (pauseStep o s).semanticCalls = s.semanticCalls ++ [pyStrip s.sentence] := by
  have h10 : ¬ (s.noHandsFrames + 1 = pauseThreshold ∧ s.sentence ≠ "" ∧
      endsWithSpace s.sentence = false) := by
    rintro ⟨he, -, -⟩
    rw [he] at h20
    simp [pauseThreshold] at h20
  simp only [pauseStep]
  rw [if_neg h10, if_pos ⟨h20, hst, hne⟩]
  exact ⟨rfl, rfl, rfl, rfl⟩

theorem handsStep_hands {o : String → Except Unit String} {e : FrameEvent}
    {s : RecState} (h : e.hasHands = true) :
    handsStep o e s = { s with noHandsFrames := 0 } := by
  unfold handsStep
  rw [if_pos h]

theorem handsStep_noHands {o : String → Except Unit String} {e : FrameEvent}
    {s : RecState} (h : e.hasHands = false) :
    handsStep o e s = pauseStep o s := by
  unfold handsStep
  rw [if_neg (by simp [h])]

theorem bufferStep_preserved (e : FrameEvent) (s : RecState) :
    (bufferStep e s).letterHistory = s.letterHistory ∧
    (bufferStep e s).sentence = s.sentence ∧
    (bufferStep e s).currentLetter = s.currentLetter ∧
    (bufferStep e s).candidateLetter = s.candidateLetter ∧
    (bufferStep e s).letterHoldStart = s.letterHoldStart ∧
    (bufferStep e s).cooldownActive = s.cooldownActive ∧
    (bufferStep e s).cooldownStart = s.cooldownStart ∧
    (bufferStep e s).lastPredictionTime = s.lastPredictionTime ∧
    (bufferStep e s).analyzedSentence = s.analyzedSentence ∧
    (bufferStep e s).lastAnalyzedSentence = s.lastAnalyzedSentence ∧
    (bufferStep e s).noHandsFrames = s.noHandsFrames ∧
    (bufferStep e s).modelLoaded = s.modelLoaded ∧
    (bufferStep e s).semanticCalls = s.semanticCalls ∧
    (bufferStep e s).inferTimes = s.inferTimes :=
  ⟨rfl, rfl, rfl, rfl, rfl, rfl, rfl, rfl, rfl, rfl, rfl, rfl, rfl, rfl⟩

theorem bufferStep_sequenceBuffer (e : FrameEvent) (s : RecState) :
    (bufferStep e s).sequenceBuffer =
      pushCap seqLen s.sequenceBuffer
        (if e.hasHands = true then e.features else zerosVec) := rfl

theorem cooldownStep_preserved (t : Rat) (s : RecState) :
    (cooldownStep t s).sentence = s.sentence ∧
    (cooldownStep t s).noHandsFrames = s.noHandsFrames ∧
    (cooldownStep t s).lastPredictionTime = s.lastPredictionTime ∧
    (cooldownStep t s).cooldownStart = s.cooldownStart ∧
    (cooldownStep t s).inferTimes = s.inferTimes ∧
    (cooldownStep t s).semanticCalls = s.semanticCalls ∧
    (cooldownStep t s).sequenceBuffer = s.sequenceBuffer ∧
    (cooldownStep t s).letterHistory = s.letterHistory ∧
    (cooldownStep t s).analyzedSentence = s.analyzedSentence ∧
    (cooldownStep t s).lastAnalyzedSentence = s.lastAnalyzedSentence ∧
    (cooldownStep t s).modelLoaded = s.modelLoaded ∧
    (cooldownStep t s).currentLetter = s.currentLetter ∧
    (cooldownStep t s).letterHoldStart = s.letterHoldStart := by
  unfold cooldownStep
  split <;> exact ⟨rfl, rfl, rfl, rfl, rfl, rfl, rfl, rfl, rfl, rfl, rfl, rfl, rfl⟩

theorem cooldownStep_active {t : Rat} {s : RecState}
    (h : (cooldownStep t s).cooldownActive = true) :
    s.cooldownActive = true ∧ t - s.cooldownStart < cooldownTime ∧
    cooldownStep t s = s := by
  rcases cooldownStep_cases t s with hc | hc
  · rw [hc] at h
    refine ⟨h, ?_, hc⟩
    by_contra hge
    have := cooldownStep_clears h (not_lt.mp hge)
    rw [hc] at this
    rw [this.1] at h
    cases h
  · rw [hc] at h
    cases h

theorem predictStep_noHands {now : Rat} {e : FrameEvent} {s : RecState}
    (h : e.hasHands = false) :
    predictStep now e s = (s, none, 0, none) := by
  unfold predictStep
  rw [if_neg (by simp [h])]

theorem predictStep_state_cases (now : Rat) (e : FrameEvent) (s : RecState) :
    (predictStep now e s).1 = s ∨
    (predictStep now e s).1 = { s with inferTimes := now :: s.inferTimes } ∨
    ∃ l, l ∈ motionLetters ∧ s.cooldownActive = false ∧
      (s.sentence = "" ∨ lastCharStr s.sentence ≠ l) ∧
      (predictStep now e s).1 =
        { s with sentence := s.sentence ++ l, currentLetter := some l,
                 cooldownActive := true, cooldownStart := now,
                 letterHistory := [], candidateLetter := none,
                 inferTimes := now :: s.inferTimes } := by
  unfold predictStep
  split
  · cases hc : e.cls with
    | none => exact Or.inr (Or.inl rfl)
    | some lc =>
      obtain ⟨l, c⟩ := lc
      simp only
      split
      · split
        · split
          · split
            · next hm hg =>
              exact Or.inr (Or.inr ⟨l, hm, hg.1, hg.2, rfl⟩)
            · exact Or.inr (Or.inl rfl)
          · exact Or.inr (Or.inl rfl)
        · exact Or.inr (Or.inl rfl)
      · exact Or.inr (Or.inl rfl)
  · exact Or.inl rfl

theorem predictStep_sp_cases (now : Rat) (e : FrameEvent) (s : RecState) :
    (predictStep now e s).2.2.2 = none ∨
    ∃ l c, e.cls = some (l, c) ∧ l ≠ "" ∧
      (predictStep now e s).2.2.2 = some l := by
  unfold predictStep
  split
  · cases hc : e.cls with
    | none => exact Or.inl rfl
    | some lc =>
      obtain ⟨l, c⟩ := lc
      simp only
      split
      · split
        · next hne =>
          split
          · split
            · exact Or.inl rfl
            · exact Or.inl rfl
          · exact Or.inr ⟨l, c, rfl, hne, rfl⟩
        · exact Or.inl rfl
      · exact Or.inl rfl
  · exact Or.inl rfl

theorem stabilityStep_state_cases (now : Rat) (p : Option String) (s : RecState) :
    stabilityStep now p s = s ∨
    ∃ l, p = some l ∧
      (stabilityStep now p s =
          { s with letterHistory := pushCap stableThreshold s.letterHistory l } ∨
       ∃ mc, mc ∈ pushCap stableThreshold s.letterHistory l ∧
         (stabilityStep now p s =
            { s with letterHistory := pushCap stableThreshold s.letterHistory l,
                     candidateLetter := some mc, letterHoldStart := now } ∨
          (s.cooldownActive = false ∧
           (s.sentence = "" ∨ lastCharStr s.sentence ≠ mc) ∧
           stabilityStep now p s =
             { s with sentence := s.sentence ++ mc, currentLetter := some mc,
                      cooldownActive := true, cooldownStart := now,
                      letterHistory := [], candidateLetter := none }))) := by
  cases p with
  | none => exact Or.inl rfl
  | some l =>
    unfold stabilityStep
    simp only
    split
    · exact Or.inl rfl
    · refine Or.inr ⟨l, rfl, ?_⟩
      split
      · rcases hm : mostCommon (pushCap stableThreshold s.letterHistory l) with _ | mc
        · exact Or.inl rfl
        · have hmem : mc ∈ pushCap stableThreshold s.letterHistory l :=
            mostCommon_mem _ _ hm
          split
          · next heq => cases heq
          · next mc2 heq =>
            have hmc : mc2 = mc := by
              injection heq with h2
              exact h2.symm
            subst hmc
            split
            · split
              · exact Or.inr ⟨mc2, hmem, Or.inl rfl⟩
              · split
                · next hhold =>
                  split
                  · next hg =>
                    exact Or.inr ⟨mc2, hmem, Or.inr ⟨hhold.2, hg, rfl⟩⟩
                  · exact Or.inl rfl
                · exact Or.inl rfl
            · exact Or.inl rfl
      · exact Or.inl rfl

theorem stabilityStep_none (now : Rat) (s : RecState) :
    stabilityStep now none s = s := rfl

/-- For a processed frame (not rate-suppressed), `process_frame` is the
composition of the cooldown check, the hands/pause branch, the buffer
push, the classifier step and the stability check, in the source's order. -/
theorem processFrame_processed (o : String → Except Unit String)
    (s : RecState) (e : FrameEvent)
    (h : ¬ (e.time - s.lastPredictionTime < predictionInterval)) :
    (processFrame o s e).1 =
      stabilityStep e.time
        ((predictStep e.time e
          (bufferStep e (handsStep o e
            (cooldownStep e.time { s with lastPredictionTime := e.time })))).2.2.2)
        ((predictStep e.time e
          (bufferStep e (handsStep o e
            (cooldownStep e.time { s with lastPredictionTime := e.time })))).1) := by
  unfold processFrame
  rw [if_neg h]

theorem runFrames_nil (o : String → Except Unit String) (s : RecState) :
    runFrames o s [] = s := rfl

theorem runFrames_cons (o : String → Except Unit String) (s : RecState)
    (e : FrameEvent) (es : List FrameEvent) :
    runFrames o s (e :: es) = runFrames o (processFrame o s e).1 es := rfl

/-- Step-invariants are preserved by whole runs. -/
theorem runFrames_inv {o : String → Except Unit String} {P : RecState → Prop}
    (hstep : ∀ s e, P s → P (processFrame o s e).1) :
    ∀ (es : List FrameEvent) (s : RecState), P s → P (runFrames o s es) := by
  intro es
  induction es with
  | nil => intro s hs; exact hs
  | cons e es ih =>
    intro s hs
    rw [runFrames_cons]
    exact ih _ (hstep s e hs)

theorem handsStep_sequenceBuffer (o : String → Except Unit String)
    (e : FrameEvent) (s : RecState) :
    (handsStep o e s).sequenceBuffer = s.sequenceBuffer := by
  cases hh : e.hasHands with
  | true => rw [handsStep_hands hh]
  | false => rw [handsStep_noHands hh]; exact (pauseStep_preserved o s).2.2.2.2.1

theorem predictStep_sequenceBuffer (now : Rat) (e : FrameEvent) (s : RecState) :
    (predictStep now e s).1.sequenceBuffer = s.sequenceBuffer := by
  rcases predictStep_state_cases now e s with h | h | ⟨l, -, -, -, h⟩ <;> rw [h]

theorem stabilityStep_sequenceBuffer (now : Rat) (p : Option String) (s : RecState) :
    (stabilityStep now p s).sequenceBuffer = s.sequenceBuffer := by
  rcases stabilityStep_state_cases now p s with h | ⟨l, -, h | ⟨mc, -, h | ⟨-, -, h⟩⟩⟩ <;>
    rw [h]

/-! ## Claim C10: rate-suppressed frames mutate no state at all -/

/-- C10: a frame event arriving less than `prediction_interval` after the
last processed frame returns early and mutates no state at all — the
sentence, analyzed sentence, sequence window, stability history, candidate,
cooldown fields and in particular `noHandsFrameCount` are all unchanged, so
pause detection counts only processed frames. -/
theorem claimC10_suppressed_no_mutation (o : String → Except Unit String)
    (s : RecState) (e : FrameEvent)
    (h : e.time - s.lastPredictionTime < predictionInterval) :
    (processFrame o s e).1 = s := by
  rw [processFrame_suppressed o s e h]

/-- Witness for C10 at a concrete suppressed frame. -/
theorem claimC10_witness :
    (handEvt (mkRat 1 10) none).time - initState.lastPredictionTime <
      predictionInterval ∧
    (processFrame oOK initState (handEvt (mkRat 1 10) none)).1 = initState :=
  ⟨by decide,
   claimC10_suppressed_no_mutation oOK initState (handEvt (mkRat 1 10) none)
     (by decide)⟩

/-! ## Claim C7: fields of the per-frame result -/

/-- C7 is refuted: a rate-suppressed call with no current letter returns a
dictionary with only the `sentence` and `analyzed_sentence` keys — the
`prediction` and `confidence` keys are absent. -/
theorem claimC7_counterexample :
    (processFrame oOK initState (handEvt (mkRat 1 10) none)).2.prediction = none ∧
    (processFrame oOK initState (handEvt (mkRat 1 10) none)).2.confidence = none := by
  decide

/-- C7 amended: every fully processed call, and every rate-suppressed call
made while a current letter exists, returns all four fields; (the remaining
case — a suppressed call with no current letter — returns only `sentence`
and `analyzedSentence`). -/
theorem claimC7_fields (o : String → Except Unit String) (s : RecState)
    (e : FrameEvent)
    (h : predictionInterval ≤ e.time - s.lastPredictionTime ∨
         pyTruthy s.currentLetter = true) :
    ((processFrame o s e).2.prediction).isSome = true ∧
    ((processFrame o s e).2.confidence).isSome = true := by
  by_cases hs : e.time - s.lastPredictionTime < predictionInterval
  · rcases h with h | h
    · exact absurd hs (not_lt.mpr h)
    · rw [processFrame_suppressed o s e hs]
      simp only [suppressedResult]
      rw [if_pos h]
      exact ⟨rfl, rfl⟩
  · unfold processFrame
    rw [if_neg hs]
    exact ⟨rfl, rfl⟩

/-- Witness for the amended C7 at a concrete processed frame. -/
theorem claimC7_witness :
    (predictionInterval ≤ (handEvt (mkRat 1 5) none).time -
        initState.lastPredictionTime ∨
      pyTruthy initState.currentLetter = true) ∧
    ((processFrame oOK initState (handEvt (mkRat 1 5) none)).2.prediction).isSome
        = true ∧
    ((processFrame oOK initState (handEvt (mkRat 1 5) none)).2.confidence).isSome
        = true :=
  ⟨Or.inl (by decide),
   claimC7_fields oOK initState (handEvt (mkRat 1 5) none) (Or.inl (by decide))⟩

/-! ## Claim C9: the sequence window on hands-absent frames -/

/-- C9 is refuted: processing a hands-absent frame does append a (zero)
feature vector to the sequence window — the window does not stay unchanged. -/
theorem claimC9_counterexample :
    (processFrame oOK initState (pauseEvt (mkRat 1 5))).1.sequenceBuffer ≠
      initState.sequenceBuffer := by
  decide

/-- C9 amended: every processed frame — hands present or not — pushes one
vector into the sequence window: the populated feature vector on a hands
frame and the all-zero vector on a hands-absent frame. -/
theorem claimC9_buffer (o : String → Except Unit String) (s : RecState)
    (e : FrameEvent)
    (h : predictionInterval ≤ e.time - s.lastPredictionTime) :
    (processFrame o s e).1.sequenceBuffer =
      pushCap seqLen s.sequenceBuffer
        (if e.hasHands = true then e.features else zerosVec) := by
  rw [processFrame_processed o s e (not_lt.mpr h), stabilityStep_sequenceBuffer,
    predictStep_sequenceBuffer, bufferStep_sequenceBuffer, handsStep_sequenceBuffer,
    (cooldownStep_preserved _ _).2.2.2.2.2.2.1]

/-- Witness for the amended C9: a concrete processed hands-absent frame
appends the zero vector. -/
theorem claimC9_witness :
    predictionInterval ≤ (pauseEvt (mkRat 1 5)).time -
      initState.lastPredictionTime ∧
    (processFrame oOK initState (pauseEvt (mkRat 1 5))).1.sequenceBuffer =
      pushCap seqLen initState.sequenceBuffer
        (if (pauseEvt (mkRat 1 5)).hasHands = true
         then (pauseEvt (mkRat 1 5)).features else zerosVec) :=
  ⟨by decide, claimC9_buffer oOK initState (pauseEvt (mkRat 1 5)) (by decide)⟩

/-! ## Claim C1: the stability promotion threshold -/

/-- C1 concerns a code bug: after the concrete reachable run `c1Events`,
the letter history is `[A,A,A,A,A,B,B,A]` with 'A' occurring 6 times of 8
(6/8 < 0.85), yet 'A' is promoted to the candidate, because the source's
cutoff `int(0.85 * 8)` truncates to 6 while its own comment demands "85 %
of frames" (which would be at least 7 of 8). -/
theorem claimC1_promotion_at_six :
    (runFrames oOK initState c1Events).candidateLetter = some "A" ∧
    ((runFrames oOK initState c1Events).letterHistory).count "A" = 6 ∧
    (runFrames oOK initState c1Events).letterHistory.length = 8 ∧
    stabilityCutoff = 6 ∧
    mkRat 6 8 < mkRat 85 100 := by
  decide

/-! ## Claim C2: the end-to-end HELLO scenario -/

/-- C2 is refuted: on the claimed scenario the final sentence is not
`"HELLO "` (the second 'L' is suppressed by the distinct-from-previous
rule) and the semantic service is never invoked (that requires
`2 × pauseThreshold` hands-absent frames, not `pauseThreshold`). -/
theorem claimC2_counterexample :
    ¬ ((runFrames oOK initState c2ClaimEvents).sentence = "HELLO " ∧
       (runFrames oOK initState c2ClaimEvents).semanticCalls = ["HELLO"]) := by
  decide

/-- C2 amended: the scenario yields the sentence `"HELO "`; with only
`pauseThreshold` hands-absent frames the semantic service is not invoked
at all, and with `2 × pauseThreshold` hands-absent frames it is invoked
exactly once, with argument `"HELO"`. -/
theorem claimC2_amended :
    (runFrames oOK initState c2ClaimEvents).sentence = "HELO " ∧
    (runFrames oOK initState c2ClaimEvents).semanticCalls = [] ∧
    (runFrames oOK initState c2LongEvents).sentence = "HELO " ∧
    (runFrames oOK initState c2LongEvents).semanticCalls = ["HELO"] := by
  decide

theorem processFrame_suppressed_state {o : String → Except Unit String}
    {s : RecState} {e : FrameEvent}
    (h : e.time - s.lastPredictionTime < predictionInterval) :
    (processFrame o s e).1 = s := by
  rw [processFrame_suppressed o s e h]

/-! ## Cooldown bookkeeping of the classifier and stability phases -/

theorem predictStep_cool (now : Rat) (e : FrameEvent) (s : RecState) :
    (predictStep now e s).1.noHandsFrames = s.noHandsFrames ∧
    (predictStep now e s).1.lastPredictionTime = s.lastPredictionTime ∧
    ((predictStep now e s).1.cooldownActive = true →
      (s.cooldownActive = true ∧
        (predictStep now e s).1.cooldownStart = s.cooldownStart) ∨
      (predictStep now e s).1.cooldownStart = now) := by
  rcases predictStep_state_cases now e s with hp | hp | ⟨l, -, -, -, hp⟩ <;> rw [hp]
  · exact ⟨rfl, rfl, fun h => Or.inl ⟨h, rfl⟩⟩
  · exact ⟨rfl, rfl, fun h => Or.inl ⟨h, rfl⟩⟩
  · exact ⟨rfl, rfl, fun _ => Or.inr rfl⟩

theorem stabilityStep_cool (now : Rat) (p : Option String) (s : RecState) :
    (stabilityStep now p s).noHandsFrames = s.noHandsFrames ∧
    (stabilityStep now p s).lastPredictionTime = s.lastPredictionTime ∧
    ((stabilityStep now p s).cooldownActive = true →
      (s.cooldownActive = true ∧
        (stabilityStep now p s).cooldownStart = s.cooldownStart) ∨
      (stabilityStep now p s).cooldownStart = now) := by
  rcases stabilityStep_state_cases now p s with hq | ⟨l, -, hq | ⟨mc, -, hq | ⟨-, -, hq⟩⟩⟩ <;>
    rw [hq]
  · exact ⟨rfl, rfl, fun h => Or.inl ⟨h, rfl⟩⟩
  · exact ⟨rfl, rfl, fun h => Or.inl ⟨h, rfl⟩⟩
  · exact ⟨rfl, rfl, fun h => Or.inl ⟨h, rfl⟩⟩
  · exact ⟨rfl, rfl, fun _ => Or.inr rfl⟩

theorem predictStep_sentence_cool {now : Rat} {e : FrameEvent} {s : RecState}
    (h : s.cooldownActive = true) :
    (predictStep now e s).1.sentence = s.sentence ∧
    (predictStep now e s).1.cooldownActive = true := by
  rcases predictStep_state_cases now e s with hp | hp | ⟨l, -, hf, -, hp⟩
  · rw [hp]; exact ⟨rfl, h⟩
  · rw [hp]; exact ⟨rfl, h⟩
  · rw [h] at hf; cases hf

theorem stabilityStep_sentence_cool {now : Rat} {p : Option String} {s : RecState}
    (h : s.cooldownActive = true) :
    (stabilityStep now p s).sentence = s.sentence := by
  rcases stabilityStep_state_cases now p s with hq | ⟨l, -, hq | ⟨mc, -, hq | ⟨hf, -, hq⟩⟩⟩
  · rw [hq]
  · rw [hq]
  · rw [hq]
  · rw [h] at hf; cases hf

/-! ## The timing invariant behind cooldown suppression (C5) -/

theorem cooldownPauseInv_init : cooldownPauseInv initState := by
  intro h
  cases h

theorem cooldownPauseInv_step (o : String → Except Unit String)
    (s : RecState) (e : FrameEvent) (h5 : cooldownPauseInv s) :
    cooldownPauseInv (processFrame o s e).1 := by
  by_cases hs : e.time - s.lastPredictionTime < predictionInterval
  · rw [processFrame_suppressed_state hs]
    exact h5
  · rw [processFrame_processed o s e hs]
    have hproc : s.lastPredictionTime + predictionInterval ≤ e.time := by
      have := not_lt.mp hs
      linarith
    have hInn : (0 : Rat) ≤ (s.noHandsFrames : Rat) * predictionInterval :=
      mul_nonneg (Nat.cast_nonneg _) (by decide)
    have hIpos : (0 : Rat) < predictionInterval := by decide
    set s1 : RecState := { s with lastPredictionTime := e.time } with hd1
    set s2 : RecState := cooldownStep e.time s1 with hd2
    set s3 : RecState := handsStep o e s2 with hd3
    set s4 : RecState := bufferStep e s3 with hd4
    set s5 : RecState := (predictStep e.time e s4).1 with hd5
    set sp : Option String := (predictStep e.time e s4).2.2.2 with hdp
    set s6 : RecState := stabilityStep e.time sp s5 with hd6
    intro hflag
    have hb := bufferStep_preserved e s3
    cases hh : e.hasHands
    · -- hands absent: only the pause branch runs
      have h3 : s3 = pauseStep o s2 := by rw [hd3, handsStep_noHands hh]
      have hps := pauseStep_preserved o s2
      have h5eq : s5 = s4 := by rw [hd5, predictStep_noHands hh]
      have hpeq : sp = none := by rw [hdp, predictStep_noHands hh]
      have h6eq : s6 = s4 := by rw [hd6, hpeq, stabilityStep_none, h5eq]
      have hflag4 : s2.cooldownActive = true := by
        rw [← hps.1, ← h3, ← hb.2.2.2.2.2.1, ← hd4, ← h6eq]
        exact hflag
      obtain ⟨hact1, -, h2eq⟩ := cooldownStep_active (hd2 ▸ hflag4)
      have hsf : s.cooldownActive = true := hact1
      have h5s := h5 hsf
      have hcnt : s6.noHandsFrames = s.noHandsFrames + 1 := by
        rw [h6eq, hd4, hb.2.2.2.2.2.2.2.2.2.2.1, h3,
          pauseStep_noHandsFrames o s2, hd2, h2eq]
      have hstart : s6.cooldownStart = s.cooldownStart := by
        rw [h6eq, hd4, hb.2.2.2.2.2.2.1, h3, hps.2.1, hd2, h2eq]
      have hlpt : s6.lastPredictionTime = e.time := by
        rw [h6eq, hd4, hb.2.2.2.2.2.2.2.1, h3, hps.2.2.1, hd2, h2eq]
      rw [hcnt, hstart, hlpt]
      push_cast
      have hexp : ((s.noHandsFrames : Rat) + 1) * predictionInterval =
          (s.noHandsFrames : Rat) * predictionInterval + predictionInterval := by
        ring
      rw [hexp]
      linarith
    · -- hands present
      have h3 : s3 = { s2 with noHandsFrames := 0 } := by
        rw [hd3, handsStep_hands hh]
      obtain ⟨hq_n, hq_l, hq_c⟩ := stabilityStep_cool e.time sp s5
      obtain ⟨hp_n, hp_l, hp_c⟩ := predictStep_cool e.time e s4
      rw [← hd6] at hq_n hq_l hq_c
      rw [← hd5] at hp_n hp_l hp_c
      have hcnt : s6.noHandsFrames = 0 := by
        rw [hq_n, hp_n, hd4, hb.2.2.2.2.2.2.2.2.2.2.1, h3]
      have hlpt : s6.lastPredictionTime = e.time := by
        rw [hq_l, hp_l, hd4, hb.2.2.2.2.2.2.2.1, h3]
        show s2.lastPredictionTime = e.time
        rw [hd2, (cooldownStep_preserved e.time s1).2.2.1]
      rw [hcnt, hlpt]
      push_cast
      rw [zero_mul, add_zero]
      rcases hq_c hflag with ⟨hp_flag, hq_start⟩ | hq_start
      · rcases hp_c hp_flag with ⟨hs_flag, hp_start⟩ | hp_start
        · have hflag3 : s2.cooldownActive = true := by
            rw [hd4, hb.2.2.2.2.2.1, h3] at hs_flag
            exact hs_flag
          obtain ⟨hact1, -, h2eq⟩ := cooldownStep_active (hd2 ▸ hflag3)
          have hsf : s.cooldownActive = true := hact1
          have h5s := h5 hsf
          have hs4start : s4.cooldownStart = s.cooldownStart := by
            rw [hd4, hb.2.2.2.2.2.2.1, h3]
            show s2.cooldownStart = s.cooldownStart
            rw [hd2, h2eq]
          rw [hq_start, hp_start, hs4start]
          linarith
        · rw [hq_start, hp_start]
      · rw [hq_start]

theorem cooldownPauseInv_run (o : String → Except Unit String)
    (es : List FrameEvent) :
    cooldownPauseInv (runFrames o initState es) :=
  runFrames_inv (fun s e h => cooldownPauseInv_step o s e h) es initState
    cooldownPauseInv_init

/-! ## Claim C5: cooldown suppression -/

/-- C5: at every state reachable from the initial state, while the
cooldown gate is active (flag set and the frame time within
`cooldown_time` of `cooldownStart`), processing a frame appends nothing to
the sentence — neither via the motion-letter path nor via the stability
path (and the pause space cannot occur within an active cooldown either);
and whenever the duration has elapsed, the cooldown check deactivates the
gate and clears the pending candidate. -/
theorem claimC5_cooldown_suppression (o : String → Except Unit String)
    (es : List FrameEvent) (e : FrameEvent) :
    (∀ s : RecState, s = runFrames o initState es → s.cooldownActive = true →
      e.time - s.cooldownStart < cooldownTime →
      (processFrame o s e).1.sentence = s.sentence) ∧
    (∀ (s' : RecState) (now : Rat), s'.cooldownActive = true →
      cooldownTime ≤ now - s'.cooldownStart →
      (cooldownStep now s').cooldownActive = false ∧
      (cooldownStep now s').candidateLetter = none) := by
  constructor
  · intro s hseq hact hlt
    have h5 : cooldownPauseInv s := by
      rw [hseq]
      exact cooldownPauseInv_run o es
    by_cases hsup : e.time - s.lastPredictionTime < predictionInterval
    · rw [processFrame_suppressed_state hsup]
    · rw [processFrame_processed o s e hsup]
      have hproc : s.lastPredictionTime + predictionInterval ≤ e.time := by
        have := not_lt.mp hsup
        linarith
      set s1 : RecState := { s with lastPredictionTime := e.time } with hd1
      set s2 : RecState := cooldownStep e.time s1 with hd2
      set s3 : RecState := handsStep o e s2 with hd3
      set s4 : RecState := bufferStep e s3 with hd4
      set s5 : RecState := (predictStep e.time e s4).1 with hd5
      set sp : Option String := (predictStep e.time e s4).2.2.2 with hdp
      set s6 : RecState := stabilityStep e.time sp s5 with hd6
      have hb := bufferStep_preserved e s3
      have h2eq : s2 = s1 := by
        rw [hd2]
        exact cooldownStep_eq_self (fun _ => hlt)
      cases hh : e.hasHands
      · -- hands absent: the space at pauseThreshold cannot fall in a cooldown
        have h3 : s3 = pauseStep o s2 := by rw [hd3, handsStep_noHands hh]
        have h5eq : s5 = s4 := by rw [hd5, predictStep_noHands hh]
        have hpeq : sp = none := by rw [hdp, predictStep_noHands hh]
        have h6eq : s6 = s4 := by rw [hd6, hpeq, stabilityStep_none, h5eq]
        have hcount9 : ¬ (s2.noHandsFrames + 1 = pauseThreshold ∧
            s2.sentence ≠ "" ∧ endsWithSpace s2.sentence = false) := by
          rintro ⟨hcn, -, -⟩
          rw [h2eq] at hcn
          have hcn2 : s.noHandsFrames + 1 = pauseThreshold := hcn
          have h9 : s.noHandsFrames = 9 := by
            simp [pauseThreshold] at hcn2
            omega
          have h5s := h5 hact
          rw [h9] at h5s
          have hnum : cooldownTime <
              ((9 : Nat) : Rat) * predictionInterval + predictionInterval := by
            decide
          linarith
        have hsent : (pauseStep o s2).sentence = s2.sentence := by
          rw [pauseStep_sentence, if_neg hcount9]
        rw [h6eq, hd4, hb.2.1, h3, hsent, h2eq, hd1]
      · -- hands present: both commit paths check the still-active flag
        have h3 : s3 = { s2 with noHandsFrames := 0 } := by
          rw [hd3, handsStep_hands hh]
        have hflag4 : s4.cooldownActive = true := by
          rw [hd4, hb.2.2.2.2.2.1, h3]
          show s2.cooldownActive = true
          rw [h2eq]
          exact hact
        obtain ⟨hsen_p, hflag_p⟩ :=
          @predictStep_sentence_cool e.time e s4 hflag4
        rw [← hd5] at hsen_p hflag_p
        have hsen_q := @stabilityStep_sentence_cool e.time sp s5 hflag_p
        rw [← hd6] at hsen_q
        rw [hsen_q, hsen_p, hd4, hb.2.1, h3]
        show s2.sentence = s.sentence
        rw [h2eq, hd1]
  · intro s' now hact hel
    exact cooldownStep_clears hact hel

/-- Witness for C5: after the 18-frame prefix of the HELLO scenario the
cooldown is active ('H' was just committed); a frame 0.2 s later leaves
the sentence unchanged, and a clock 2.4 s later clears the gate. -/
theorem claimC5_witness :
    (runFrames oOK initState (helloEvents.take 18)).cooldownActive = true ∧
    (handEvt (mkRat 19 5) none).time -
      (runFrames oOK initState (helloEvents.take 18)).cooldownStart <
        cooldownTime ∧
    (processFrame oOK (runFrames oOK initState (helloEvents.take 18))
        (handEvt (mkRat 19 5) none)).1.sentence =
      (runFrames oOK initState (helloEvents.take 18)).sentence ∧
    (cooldownStep (mkRat 6 1)
        (runFrames oOK initState (helloEvents.take 18))).cooldownActive = false ∧
    (cooldownStep (mkRat 6 1)
        (runFrames oOK initState (helloEvents.take 18))).candidateLetter = none :=
  ⟨by decide, by decide,
   (claimC5_cooldown_suppression oOK (helloEvents.take 18)
      (handEvt (mkRat 19 5) none)).1 _ rfl (by decide) (by decide),
   (claimC5_cooldown_suppression oOK (helloEvents.take 18)
      (handEvt (mkRat 19 5) none)).2 _ (mkRat 6 1) (by decide) (by decide)⟩

/-! ## Claim C6: classifier rate limiting -/

theorem handsStep_lastPredictionTime (o : String → Except Unit String)
    (e : FrameEvent) (s : RecState) :
    (handsStep o e s).lastPredictionTime = s.lastPredictionTime := by
  cases hh : e.hasHands
  · rw [handsStep_noHands hh]
    exact (pauseStep_preserved o s).2.2.1
  · rw [handsStep_hands hh]

theorem handsStep_inferTimes (o : String → Except Unit String)
    (e : FrameEvent) (s : RecState) :
    (handsStep o e s).inferTimes = s.inferTimes := by
  cases hh : e.hasHands
  · rw [handsStep_noHands hh]
    exact (pauseStep_preserved o s).2.2.2.1
  · rw [handsStep_hands hh]

theorem predictStep_inferTimes (now : Rat) (e : FrameEvent) (s : RecState) :
    (predictStep now e s).1.inferTimes = s.inferTimes ∨
    (predictStep now e s).1.inferTimes = now :: s.inferTimes := by
  rcases predictStep_state_cases now e s with hp | hp | ⟨l, -, -, -, hp⟩ <;> rw [hp]
  · exact Or.inl rfl
  · exact Or.inr rfl
  · exact Or.inr rfl

theorem stabilityStep_inferTimes (now : Rat) (p : Option String) (s : RecState) :
    (stabilityStep now p s).inferTimes = s.inferTimes := by
  rcases stabilityStep_state_cases now p s with hq | ⟨l, -, hq | ⟨mc, -, hq | ⟨-, -, hq⟩⟩⟩ <;>
    rw [hq]

theorem rateLimitInv_init : rateLimitInv initState := by
  constructor
  · exact List.chain'_nil
  · intro t ht
    cases ht

theorem rateLimitInv_step (o : String → Except Unit String)
    (s : RecState) (e : FrameEvent) (h : rateLimitInv s) :
    rateLimitInv (processFrame o s e).1 := by
  by_cases hs : e.time - s.lastPredictionTime < predictionInterval
  · rw [processFrame_suppressed_state hs]
    exact h
  · rw [processFrame_processed o s e hs]
    have hproc : s.lastPredictionTime + predictionInterval ≤ e.time := by
      have := not_lt.mp hs
      linarith
    have hIpos : (0 : Rat) < predictionInterval := by decide
    set s1 : RecState := { s with lastPredictionTime := e.time } with hd1
    set s2 : RecState := cooldownStep e.time s1 with hd2
    set s3 : RecState := handsStep o e s2 with hd3
    set s4 : RecState := bufferStep e s3 with hd4
    set s5 : RecState := (predictStep e.time e s4).1 with hd5
    set sp : Option String := (predictStep e.time e s4).2.2.2 with hdp
    set s6 : RecState := stabilityStep e.time sp s5 with hd6
    have hb := bufferStep_preserved e s3
    have hIT4 : s4.inferTimes = s.inferTimes := by
      rw [hd4, hb.2.2.2.2.2.2.2.2.2.2.2.2.2, hd3, handsStep_inferTimes o e s2,
        hd2, (cooldownStep_preserved e.time s1).2.2.2.2.1, hd1]
    have hlpt : s6.lastPredictionTime = e.time := by
      rw [hd6, (stabilityStep_cool e.time sp s5).2.1, hd5,
        (predictStep_cool e.time e s4).2.1, hd4, hb.2.2.2.2.2.2.2.1, hd3,
        handsStep_lastPredictionTime o e s2, hd2,
        (cooldownStep_preserved e.time s1).2.2.1]
    have hIT6 : s6.inferTimes = s5.inferTimes := by
      rw [hd6, stabilityStep_inferTimes]
    rcases predictStep_inferTimes e.time e s4 with hit | hit <;> rw [← hd5] at hit
    · constructor
      · rw [hIT6, hit, hIT4]
        exact h.1
      · intro t ht
        rw [hIT6, hit, hIT4] at ht
        have := h.2 t ht
        rw [hlpt]
        linarith
    · constructor
      · rw [hIT6, hit, hIT4]
        rw [List.chain'_cons']
        refine ⟨?_, h.1⟩
        intro b hb2
        have := h.2 b hb2
        linarith
      · intro t ht
        rw [hIT6, hit, hIT4] at ht
        simp only [List.head?, Option.mem_def, Option.some.injEq] at ht
        rw [hlpt, ht]

/-- C6: along any event stream from the initial state, consecutive
classifier-invocation timestamps (newest first) are at least
`prediction_interval` apart — the gateway is called at most once per
interval; and any frame arriving less than the interval after the last
processed frame performs no classifier call and leaves the whole state —
hence the last prediction — in use. -/
theorem claimC6_rate_limit (o : String → Except Unit String)
    (es : List FrameEvent) :
    List.Chain' (fun a b => b + predictionInterval ≤ a)
      ((runFrames o initState es).inferTimes) ∧
    (∀ (s : RecState) (e : FrameEvent),
      e.time - s.lastPredictionTime < predictionInterval →
      (processFrame o s e).1.inferTimes = s.inferTimes ∧
      (processFrame o s e).1 = s) := by
  constructor
  · exact (runFrames_inv (fun s e h => rateLimitInv_step o s e h) es initState
      rateLimitInv_init).1
  · intro s e h
    rw [processFrame_suppressed_state h]
    exact ⟨rfl, rfl⟩

/-- Witness for C6 at a concrete suppressed frame. -/
theorem claimC6_witness :
    (handEvt (mkRat 1 10) none).time - initState.lastPredictionTime <
      predictionInterval ∧
    (processFrame oOK initState (handEvt (mkRat 1 10) none)).1.inferTimes =
      initState.inferTimes ∧
    (processFrame oOK initState (handEvt (mkRat 1 10) none)).1 = initState :=
  ⟨by decide,
   (claimC6_rate_limit oOK []).2 initState (handEvt (mkRat 1 10) none) (by decide)⟩

/-! ## Claim C8: semantic-service failure handling -/

/-- C8: when the pause is long enough and the non-blank sentence has
changed, a failing semantic call is caught locally: the fallback string
embedding the original text is stored as `analyzedSentence`, and
`lastAnalyzedSentence` is still updated to the current sentence (which the
frame leaves untouched); consequently any state whose sentence equals
`lastAnalyzedSentence` performs no semantic call on any further
hands-absent frame — the same unchanged sentence is never re-analyzed. -/
theorem claimC8_semantic_failure (o : String → Except Unit String) :
    (∀ (s : RecState) (e : FrameEvent),
      e.hasHands = false →
      predictionInterval ≤ e.time - s.lastPredictionTime →
      pauseThreshold * 2 ≤ s.noHandsFrames + 1 →
      pyStrip s.sentence ≠ "" →
      s.sentence ≠ s.lastAnalyzedSentence →
      o (pyStrip s.sentence) = Except.error () →
      (processFrame o s e).1.analyzedSentence =
        "Error analyzing: " ++ pyStrip s.sentence ∧
      (processFrame o s e).1.lastAnalyzedSentence = s.sentence ∧
      (processFrame o s e).1.sentence = s.sentence) ∧
    (∀ (s : RecState) (e : FrameEvent),
      s.sentence = s.lastAnalyzedSentence → e.hasHands = false →
      (processFrame o s e).1.semanticCalls = s.semanticCalls) := by
  constructor
  · intro s e hh hsup h20 hst hne hfail
    rw [processFrame_processed o s e (not_lt.mpr hsup)]
    set s1 : RecState := { s with lastPredictionTime := e.time } with hd1
    set s2 : RecState := cooldownStep e.time s1 with hd2
    set s3 : RecState := handsStep o e s2 with hd3
    set s4 : RecState := bufferStep e s3 with hd4
    set s5 : RecState := (predictStep e.time e s4).1 with hd5
    set sp : Option String := (predictStep e.time e s4).2.2.2 with hdp
    set s6 : RecState := stabilityStep e.time sp s5 with hd6
    have hb := bufferStep_preserved e s3
    have hcp := cooldownStep_preserved e.time s1
    have h3 : s3 = pauseStep o s2 := by rw [hd3, handsStep_noHands hh]
    have h5eq : s5 = s4 := by rw [hd5, predictStep_noHands hh]
    have hpeq : sp = none := by rw [hdp, predictStep_noHands hh]
    have h6eq : s6 = s4 := by rw [hd6, hpeq, stabilityStep_none, h5eq]
    have hsent2 : s2.sentence = s.sentence := by rw [hd2, hcp.1, hd1]
    have hcnt2 : s2.noHandsFrames = s.noHandsFrames := by rw [hd2, hcp.2.1, hd1]
    have hla2 : s2.lastAnalyzedSentence = s.lastAnalyzedSentence := by
      rw [hd2, hcp.2.2.2.2.2.2.2.2.2.1, hd1]
    have hpa := @pauseStep_analysis o s2
      (by rw [hcnt2]; exact h20)
      (by rw [hsent2]; exact hst)
      (by rw [hsent2, hla2]; exact hne)
    have hana : analyzeSentence o (pyStrip s2.sentence) =
        "Error analyzing: " ++ pyStrip s.sentence := by
      rw [hsent2]
      unfold analyzeSentence
      rw [if_neg (by rw [pyStrip_not_blank hst]; exact Bool.false_ne_true), hfail]
    refine ⟨?_, ?_, ?_⟩
    · rw [h6eq, hd4, hb.2.2.2.2.2.2.2.2.1, h3, hpa.2.1, hana]
    · rw [h6eq, hd4, hb.2.2.2.2.2.2.2.2.2.1, h3, hpa.2.2.1, hsent2]
    · rw [h6eq, hd4, hb.2.1, h3, hpa.1, hsent2]
  · intro s e heq hh
    by_cases hsup : e.time - s.lastPredictionTime < predictionInterval
    · rw [processFrame_suppressed_state hsup]
    · rw [processFrame_processed o s e hsup]
      set s1 : RecState := { s with lastPredictionTime := e.time } with hd1
      set s2 : RecState := cooldownStep e.time s1 with hd2
      set s3 : RecState := handsStep o e s2 with hd3
      set s4 : RecState := bufferStep e s3 with hd4
      set s5 : RecState := (predictStep e.time e s4).1 with hd5
      set sp : Option String := (predictStep e.time e s4).2.2.2 with hdp
      set s6 : RecState := stabilityStep e.time sp s5 with hd6
      have hb := bufferStep_preserved e s3
      have hcp := cooldownStep_preserved e.time s1
      have h3 : s3 = pauseStep o s2 := by rw [hd3, handsStep_noHands hh]
      have h5eq : s5 = s4 := by rw [hd5, predictStep_noHands hh]
      have hpeq : sp = none := by rw [hdp, predictStep_noHands hh]
      have h6eq : s6 = s4 := by rw [hd6, hpeq, stabilityStep_none, h5eq]
      have hsent2 : s2.sentence = s.sentence := by rw [hd2, hcp.1, hd1]
      have hla2 : s2.lastAnalyzedSentence = s.lastAnalyzedSentence := by
        rw [hd2, hcp.2.2.2.2.2.2.2.2.2.1, hd1]
      have hpc : (pauseStep o s2).semanticCalls = s2.semanticCalls :=
        pauseStep_semanticCalls_of_eq (by rw [hsent2, hla2]; exact heq)
      have hsc2 : s2.semanticCalls = s.semanticCalls := by
        rw [hd2, hcp.2.2.2.2.2.1, hd1]
      rw [h6eq, hd4, hb.2.2.2.2.2.2.2.2.2.2.2.2.1, h3, hpc, hsc2]

/-- Witness for C8: with a failing oracle, the 20th hands-absent frame
stores the fallback and updates `lastAnalyzedSentence`; the 21st one makes
no further semantic call. -/
theorem claimC8_witness :
    ((processFrame oFail c8State (pauseEvt (mkRat 1 1))).1.analyzedSentence =
        "Error analyzing: " ++ pyStrip c8State.sentence ∧
      (processFrame oFail c8State (pauseEvt (mkRat 1 1))).1.lastAnalyzedSentence =
        c8State.sentence ∧
      (processFrame oFail c8State (pauseEvt (mkRat 1 1))).1.sentence =
        c8State.sentence) ∧
    (processFrame oFail ((processFrame oFail c8State (pauseEvt (mkRat 1 1))).1)
        (pauseEvt (mkRat 6 5))).1.semanticCalls =
      ((processFrame oFail c8State (pauseEvt (mkRat 1 1))).1).semanticCalls :=
  ⟨(claimC8_semantic_failure oFail).1 c8State (pauseEvt (mkRat 1 1))
      (by decide) (by decide) (by decide) (by decide) (by decide) rfl,
   (claimC8_semantic_failure oFail).2 _ (pauseEvt (mkRat 6 5))
      (by decide) (by decide)⟩

/-! ## Claim C3: no immediate repeat -/

theorem noConsec_append {s l : String} {c : Char}
    (hs : noConsec s) (hl : l.data = [c])
    (hg : s = "" ∨ lastCharStr s ≠ l) : noConsec (s ++ l) := by
  have hleq : l = String.mk [c] := by
    cases l with
    | mk d => cases hl; rfl
  unfold noConsec at hs ⊢
  rw [strData_append, hl, List.chain'_append]
  refine ⟨hs, List.chain'_singleton c, ?_⟩
  intro x hx y hy
  have hy2 : y = c := Eq.symm (by simpa using hy)
  subst hy2
  rcases hg with hg | hg
  · have hnil : s.data = [] := by rw [hg]
    rw [hnil] at hx
    cases hx
  · intro hxc
    apply hg
    unfold lastCharStr
    have hx2 : s.data.getLast? = some x := by simpa using hx
    rw [hx2]
    show String.mk [x] = l
    rw [hxc, hleq]

theorem noConsec_append_space {s : String} (hs : noConsec s)
    (hw : endsWithSpace s = false) : noConsec (s ++ " ") := by
  apply @noConsec_append s " " ' ' hs rfl
  by_cases hemp : s = ""
  · exact Or.inl hemp
  · right
    intro heq
    unfold endsWithSpace at hw
    unfold lastCharStr at heq
    rcases hlast : s.data.getLast? with _ | d
    · rw [hlast] at heq
      exact absurd heq (by decide)
    · rw [hlast] at heq
      have hd : d = ' ' := by
        have h2 := congrArg String.data heq
        simpa using h2
      rw [hlast, hd] at hw
      simp at hw

theorem sentenceInv_step (o : String → Except Unit String)
    (s : RecState) (e : FrameEvent) (hl : labelOK e = true)
    (h : sentenceInv s) : sentenceInv (processFrame o s e).1 := by
  by_cases hs : e.time - s.lastPredictionTime < predictionInterval
  · rw [processFrame_suppressed_state hs]
    exact h
  · rw [processFrame_processed o s e hs]
    set s1 : RecState := { s with lastPredictionTime := e.time } with hd1
    set s2 : RecState := cooldownStep e.time s1 with hd2
    set s3 : RecState := handsStep o e s2 with hd3
    set s4 : RecState := bufferStep e s3 with hd4
    set s5 : RecState := (predictStep e.time e s4).1 with hd5
    set sp : Option String := (predictStep e.time e s4).2.2.2 with hdp
    set s6 : RecState := stabilityStep e.time sp s5 with hd6
    have h2 : sentenceInv s2 := by
      constructor
      · rw [hd2, (cooldownStep_preserved e.time s1).1, hd1]
        exact h.1
      · rw [hd2, (cooldownStep_preserved e.time s1).2.2.2.2.2.2.2.1, hd1]
        exact h.2
    have h3 : sentenceInv s3 := by
      cases hh : e.hasHands
      · constructor
        · rw [hd3, handsStep_noHands hh, pauseStep_sentence]
          split
          · next hcond => exact noConsec_append_space h2.1 hcond.2.2
          · exact h2.1
        · rw [hd3, handsStep_noHands hh, (pauseStep_preserved o s2).2.2.2.2.2.2.1]
          intro x hx
          cases hx
      · constructor
        · rw [hd3, handsStep_hands hh]
          exact h2.1
        · rw [hd3, handsStep_hands hh]
          exact h2.2
    have h4 : sentenceInv s4 := by
      constructor
      · rw [hd4, (bufferStep_preserved e s3).2.1]
        exact h3.1
      · rw [hd4, (bufferStep_preserved e s3).1]
        exact h3.2
    have h5inv : sentenceInv s5 := by
      rcases predictStep_state_cases e.time e s4 with hp | hp | ⟨l, hm, -, hg, hp⟩ <;>
        rw [hd5, hp]
      · exact h4
      · exact h4
      · have hJ : l = "J" := by simpa [motionLetters] using hm
        subst hJ
        constructor
        · exact noConsec_append h4.1 rfl hg
        · intro x hx
          cases hx
    have hlen_sp : ∀ l2, sp = some l2 → l2.data.length = 1 := by
      intro l2 hsp
      rcases predictStep_sp_cases e.time e s4 with hq | ⟨l3, c3, hcls, -, hq⟩ <;>
        rw [← hdp] at hq
      · rw [hq] at hsp
        cases hsp
      · rw [hq] at hsp
        injection hsp with h23
        subst h23
        unfold labelOK at hl
        rw [hcls] at hl
        simpa using hl
    rcases stabilityStep_state_cases e.time sp s5 with
      hq | ⟨l2, hps, hq | ⟨mc, hmem, hq | ⟨-, hg, hq⟩⟩⟩ <;> rw [hd6, hq]
    · exact h5inv
    · constructor
      · exact h5inv.1
      · intro x hx
        rcases pushCap_mem hx with hx2 | hx2
        · exact h5inv.2 x hx2
        · rw [hx2]
          exact hlen_sp l2 hps
    · constructor
      · exact h5inv.1
      · intro x hx
        rcases pushCap_mem hx with hx2 | hx2
        · exact h5inv.2 x hx2
        · rw [hx2]
          exact hlen_sp l2 hps
    · constructor
      · have hmlen : mc.data.length = 1 := by
          rcases pushCap_mem hmem with hx2 | hx2
          · exact h5inv.2 mc hx2
          · rw [hx2]
            exact hlen_sp l2 hps
        obtain ⟨c, hc⟩ := List.length_eq_one.mp hmlen
        exact noConsec_append h5inv.1 hc hg
      · intro x hx
        cases hx

theorem sentenceInv_init : sentenceInv initState := by
  constructor
  · exact List.chain'_nil
  · intro x hx
    cases hx

theorem sentenceInv_reset (s0 : RecState) : sentenceInv (resetState s0) := by
  constructor
  · exact List.chain'_nil
  · intro x hx
    cases hx

theorem sentenceInv_run (o : String → Except Unit String) :
    ∀ (es : List FrameEvent) (s : RecState), labelsOK es = true →
      sentenceInv s → sentenceInv (runFrames o s es) := by
  intro es
  induction es with
  | nil =>
    intro s _ hs
    exact hs
  | cons e es ih =>
    intro s hok hs
    rw [runFrames_cons]
    have h1 : labelOK e = true ∧ labelsOK es = true := by
      simpa [labelsOK] using hok
    exact ih _ h1.2 (sentenceInv_step o s e h1.1 hs)

/-- C3: for every stream of single-character classifier labels, at every
state reachable from the initial state — or from any reset state — no two
consecutive characters of the sentence are equal: a committed letter
always differs from the current last character, and only a space can
separate two equal letters. -/
theorem claimC3_no_immediate_repeat (o : String → Except Unit String)
    (es : List FrameEvent) (hok : labelsOK es = true) :
    noConsec (runFrames o initState es).sentence ∧
    ∀ s0 : RecState, noConsec (runFrames o (resetState s0) es).sentence := by
  constructor
  · exact (sentenceInv_run o es initState hok sentenceInv_init).1
  · intro s0
    exact (sentenceInv_run o es (resetState s0) hok (sentenceInv_reset s0)).1

/-- Witness for C3 on the concrete HELLO stream (final sentence "HELO "). -/
theorem claimC3_witness :
    labelsOK helloEvents = true ∧
    noConsec (runFrames oOK initState helloEvents).sentence :=
  ⟨by decide, (claimC3_no_immediate_repeat oOK helloEvents (by decide)).1⟩

/-! ## Claim C4: a single space per pause episode -/

/-- Full effect of one processed hands-absent frame on the pause state:
the counter increments, and a space is appended exactly when the counter
first reaches `pause_threshold` on a non-empty sentence not already ending
in a space. -/
theorem step_noHands_effect (o : String → Except Unit String)
    (s : RecState) (e : FrameEvent) (hh : e.hasHands = false)
    (hsup : predictionInterval ≤ e.time - s.lastPredictionTime) :
    (processFrame o s e).1.noHandsFrames = s.noHandsFrames + 1 ∧
    (processFrame o s e).1.sentence =
      (if s.noHandsFrames + 1 = pauseThreshold ∧ s.sentence ≠ "" ∧
          endsWithSpace s.sentence = false
       then s.sentence ++ " " else s.sentence) ∧
    (processFrame o s e).1.lastPredictionTime = e.time := by
  rw [processFrame_processed o s e (not_lt.mpr hsup)]
  set s1 : RecState := { s with lastPredictionTime := e.time } with hd1
  set s2 : RecState := cooldownStep e.time s1 with hd2
  set s3 : RecState := handsStep o e s2 with hd3
  set s4 : RecState := bufferStep e s3 with hd4
  set s5 : RecState := (predictStep e.time e s4).1 with hd5
  set sp : Option String := (predictStep e.time e s4).2.2.2 with hdp
  set s6 : RecState := stabilityStep e.time sp s5 with hd6
  have hb := bufferStep_preserved e s3
  have hcp := cooldownStep_preserved e.time s1
  have h3 : s3 = pauseStep o s2 := by rw [hd3, handsStep_noHands hh]
  have h5eq : s5 = s4 := by rw [hd5, predictStep_noHands hh]
  have hpeq : sp = none := by rw [hdp, predictStep_noHands hh]
  have h6eq : s6 = s4 := by rw [hd6, hpeq, stabilityStep_none, h5eq]
  have hsent2 : s2.sentence = s.sentence := by rw [hd2, hcp.1, hd1]
  have hcnt2 : s2.noHandsFrames = s.noHandsFrames := by rw [hd2, hcp.2.1, hd1]
  refine ⟨?_, ?_, ?_⟩
  · rw [h6eq, hd4, hb.2.2.2.2.2.2.2.2.2.2.1, h3, pauseStep_noHandsFrames o s2,
      hcnt2]
  · have hps := pauseStep_sentence o s2
    rw [hsent2, hcnt2] at hps
    rw [h6eq, hd4, hb.2.1, h3, hps]
  · rw [h6eq, hd4, hb.2.2.2.2.2.2.2.1, h3, (pauseStep_preserved o s2).2.2.1,
      hd2, hcp.2.2.1, hd1]

theorem pauseRun_aux (o : String → Except Unit String) :
    ∀ (k : Nat) (s : RecState) (t0 : Rat) (n : Nat),
      s.noHandsFrames = n →
      s.lastPredictionTime + predictionInterval ≤ t0 →
      (n < pauseThreshold → s.sentence ≠ "" ∧ endsWithSpace s.sentence = false) →
      (runFrames o s (mkPause t0 k)).noHandsFrames = n + k ∧
      (runFrames o s (mkPause t0 k)).sentence =
        (if n < pauseThreshold ∧ pauseThreshold ≤ n + k
         then s.sentence ++ " " else s.sentence) := by
  intro k
  induction k with
  | zero =>
    intro s t0 n hn _ _
    refine ⟨by simpa [mkPause, runFrames_nil] using hn, ?_⟩
    rw [show mkPause t0 0 = [] from rfl, runFrames_nil,
      if_neg (by rintro ⟨h1, h2⟩; omega)]
  | succ k ih =>
    intro s t0 n hn ht hcond
    rw [show mkPause t0 (k + 1) = pauseEvt t0 :: mkPause
        (t0 + predictionInterval) k from rfl, runFrames_cons]
    have heff := step_noHands_effect o s (pauseEvt t0) rfl (by
      show predictionInterval ≤ t0 - s.lastPredictionTime
      linarith)
    obtain ⟨hc1, hc2, hc3⟩ := heff
    rw [hn] at hc1 hc2
    have hcond2 : (processFrame o s (pauseEvt t0)).1.noHandsFrames = n + 1 := hc1
    have ht2 : (processFrame o s (pauseEvt t0)).1.lastPredictionTime +
        predictionInterval ≤ t0 + predictionInterval := by
      rw [hc3]
      exact le_rfl
    have hcond3 : n + 1 < pauseThreshold →
        (processFrame o s (pauseEvt t0)).1.sentence ≠ "" ∧
        endsWithSpace (processFrame o s (pauseEvt t0)).1.sentence = false := by
      intro hlt
      rw [hc2, if_neg (by rintro ⟨h1, -⟩; omega)]
      exact hcond (by omega)
    obtain ⟨ih1, ih2⟩ := ih ((processFrame o s (pauseEvt t0)).1)
      (t0 + predictionInterval) (n + 1) hcond2 ht2 hcond3
    refine ⟨by rw [ih1]; omega, ?_⟩
    rw [ih2, hc2]
    by_cases hC : n + 1 = pauseThreshold
    · have hcnd := hcond (by omega)
      rw [if_pos (show n + 1 = pauseThreshold ∧ s.sentence ≠ "" ∧
          endsWithSpace s.sentence = false from ⟨hC, hcnd.1, hcnd.2⟩),
        if_neg (show ¬ (n + 1 < pauseThreshold ∧ pauseThreshold ≤ n + 1 + k)
          from by rintro ⟨h1, -⟩; omega),
        if_pos (show n < pauseThreshold ∧ pauseThreshold ≤ n + (k + 1)
          from ⟨by omega, by omega⟩)]
    · rw [if_neg (show ¬ (n + 1 = pauseThreshold ∧ s.sentence ≠ "" ∧
          endsWithSpace s.sentence = false)
          from by rintro ⟨h1, -, -⟩; exact hC h1)]
      by_cases hA : n + 1 < pauseThreshold
      · by_cases hB : pauseThreshold ≤ n + 1 + k
        · rw [if_pos (show n + 1 < pauseThreshold ∧
              pauseThreshold ≤ n + 1 + k from ⟨hA, hB⟩),
            if_pos (show n < pauseThreshold ∧ pauseThreshold ≤ n + (k + 1)
              from ⟨by omega, by omega⟩)]
        · rw [if_neg (show ¬ (n + 1 < pauseThreshold ∧
              pauseThreshold ≤ n + 1 + k) from by rintro ⟨-, h2⟩; omega),
            if_neg (show ¬ (n < pauseThreshold ∧ pauseThreshold ≤ n + (k + 1))
              from by rintro ⟨-, h2⟩; omega)]
      · rw [if_neg (show ¬ (n + 1 < pauseThreshold ∧
            pauseThreshold ≤ n + 1 + k) from by rintro ⟨h1, -⟩; exact hA h1),
          if_neg (show ¬ (n < pauseThreshold ∧ pauseThreshold ≤ n + (k + 1))
            from by rintro ⟨h1, -⟩; omega)]

/-- C4: (i) one processed hands-absent frame increments the counter and
appends a space exactly at the frame where the counter first reaches
`pause_threshold` while the sentence is non-empty and does not already end
in a space; (ii) a contiguous run of at least `pause_threshold` processed
hands-absent frames starting from a zero counter appends exactly one
space; (iii) hence the sentence never contains two consecutive spaces. -/
theorem claimC4_single_space (o : String → Except Unit String) :
    (∀ (s : RecState) (e : FrameEvent), e.hasHands = false →
      predictionInterval ≤ e.time - s.lastPredictionTime →
      (processFrame o s e).1.noHandsFrames = s.noHandsFrames + 1 ∧
      (processFrame o s e).1.sentence =
        (if s.noHandsFrames + 1 = pauseThreshold ∧ s.sentence ≠ "" ∧
            endsWithSpace s.sentence = false
         then s.sentence ++ " " else s.sentence)) ∧
    (∀ (s : RecState) (t0 : Rat) (k : Nat),
      s.noHandsFrames = 0 → s.sentence ≠ "" → endsWithSpace s.sentence = false →
      s.lastPredictionTime + predictionInterval ≤ t0 → pauseThreshold ≤ k →
      (runFrames o s (mkPause t0 k)).sentence = s.sentence ++ " ") ∧
    (∀ es, labelsOK es = true →
      List.Chain' (fun a b => ¬ (a = ' ' ∧ b = ' '))
        (runFrames o initState es).sentence.data) := by
  refine ⟨?_, ?_, ?_⟩
  · intro s e hh hsup
    exact ⟨(step_noHands_effect o s e hh hsup).1,
      (step_noHands_effect o s e hh hsup).2.1⟩
  · intro s t0 k h0 hne hw ht hk
    have haux := (pauseRun_aux o k s t0 0 h0 ht (fun _ => ⟨hne, hw⟩)).2
    rw [haux, if_pos ⟨by simp [pauseThreshold], by omega⟩]
  · intro es hok
    have h := (sentenceInv_run o es initState hok sentenceInv_init).1
    exact List.Chain'.imp (fun a b hne hab => hne (hab.1.trans hab.2.symm)) h

/-- Witness for C4: a concrete hands-absent frame at counter 9 appends the
space; a fresh 10-frame pause run appends exactly one space; the HELLO run
has no two consecutive spaces. -/
theorem claimC4_witness :
    ((processFrame oOK c4State (pauseEvt (mkRat 1 1))).1.noHandsFrames =
        c4State.noHandsFrames + 1 ∧
      (processFrame oOK c4State (pauseEvt (mkRat 1 1))).1.sentence =
        (if c4State.noHandsFrames + 1 = pauseThreshold ∧
            c4State.sentence ≠ "" ∧ endsWithSpace c4State.sentence = false
         then c4State.sentence ++ " " else c4State.sentence)) ∧
    (runFrames oOK c4State0 (mkPause (mkRat 1 1) 10)).sentence =
      c4State0.sentence ++ " " ∧
    labelsOK helloEvents = true ∧
    List.Chain' (fun a b => ¬ (a = ' ' ∧ b = ' '))
      (runFrames oOK initState helloEvents).sentence.data :=
  ⟨(claimC4_single_space oOK).1 c4State (pauseEvt (mkRat 1 1)) (by decide)
      (by decide),
   (claimC4_single_space oOK).2.1 c4State0 (mkRat 1 1) 10 (by decide)
     (by decide) (by decide) (by decide) (by decide),
   by decide,
   (claimC4_single_space oOK).2.2 helloEvents (by decide)⟩

end Proofs

end ASL
